import Mathlib

/-!
# Verification of the mailbox-mcp storage engine

Shallow embedding of `src/db.rs` (the storage engine actually compiled into the
crate: `lib.rs` declares only the modules `db` and `tools`; the files
`context.rs` and `messages.rs` are alternate implementations that are not part
of the crate).

Modelling conventions:

* The SQLite `context` table is a list of rows in rowid (insertion) order.
  The table is declared `PRIMARY KEY (project_id, key)` with `project_id`
  nullable.  In SQLite, NULL values in a (non-INTEGER, rowid-table) PRIMARY KEY
  are allowed and every NULL is distinct from every other NULL for uniqueness
  purposes, so an `INSERT ... ON CONFLICT(project_id, key) DO UPDATE` with a
  NULL `project_id` never hits the conflict clause: it always inserts a fresh
  row.  With a non-NULL `project_id` the conflict clause fires and updates the
  conflicting row in place (its rowid, project_id and key are unchanged).
  The embedding reproduces exactly this.
* `SELECT ... WHERE project_id IS ?1 AND key = ?2` with `query_row` returns the
  first matching row in scan order; matching rows agree on the indexed columns,
  so scan order among them is rowid order, i.e. list order here.
* The `messages` table is a list of rows in rowid order together with the
  `AUTOINCREMENT` counter: ids are assigned strictly increasing and are never
  reused, even after deletion.
* `created_at` is assigned by the database at insertion time
  (`strftime('%Y-%m-%dT%H:%M:%SZ','now')`, a fixed-width ISO-8601 string whose
  lexicographic order is chronological order); it is modelled as a `Nat`
  supplied to `send_message` as the clock reading `now`.
* The message query `ORDER BY created_at ASC LIMIT ?3` is answered by SQLite
  through the index `idx_messages_queue (project_id, to_agent, created_at)`,
  which it scans in index order; entries with equal keys sit in the index in
  rowid order, so rows arrive ordered by `(created_at, id)`.  The embedding
  sorts the filtered rows by that lexicographic order (the sort is a
  permutation with a unique sorted image once ids are distinct, so the choice
  of algorithm is immaterial).
* Rust `str::trim` (Unicode `White_Space` stripping from both ends) is
  embedded as `rustTrim`; Rust `str::len` (UTF-8 byte length) is
  `String.utf8ByteSize`; Rust `<i64 as FromStr>::from_str` is `parseI64`.
* Fallible operations return `Except DbError`; a failed validation performs no
  write, which the embedding renders by returning only the error.
-/

namespace Mailbox

/-- Maximum allowed size for message content (`MAX_MESSAGE_SIZE`, 1 MiB). -/
def MAX_MESSAGE_SIZE : Nat := 1024 * 1024

/-- Maximum allowed size for context values (`MAX_CONTEXT_VALUE_SIZE`, 64 KiB). -/
def MAX_CONTEXT_VALUE_SIZE : Nat := 64 * 1024

/-- Maximum number of messages retrieved by a single query (`MAX_MESSAGE_LIMIT`). -/
def MAX_MESSAGE_LIMIT : Nat := 500

/-- Validation errors of `db.rs` (`DbError`).  The `Sqlite`/`Io` variants wrap
transport-level faults of the real database connection and are outside the
pure model. -/
inductive DbError where
  | ContentTooLarge (size limit : Nat)
  | EmptyField (field : String)
  | InvalidMessageId (id : String)
deriving DecidableEq, Repr

instance {ε α : Type} [DecidableEq ε] [DecidableEq α] : DecidableEq (Except ε α)
  | .error e, .error f =>
    if h : e = f then .isTrue (by rw [h]) else .isFalse (fun c => by cases c; exact h rfl)
  | .error _, .ok _ => .isFalse (fun c => by cases c)
  | .ok _, .error _ => .isFalse (fun c => by cases c)
  | .ok a, .ok b =>
    if h : a = b then .isTrue (by rw [h]) else .isFalse (fun c => by cases c; exact h rfl)

/-- Rust `char::is_whitespace`: the Unicode `White_Space` code points. -/
def isRustWhitespace (c : Char) : Bool :=
  c = ' ' || c = '\t' || c = '\n' || c.toNat = 0xB || c.toNat = 0xC || c = '\r' ||
  c.toNat = 0x85 || c.toNat = 0xA0 || c.toNat = 0x1680 ||
  (0x2000 ≤ c.toNat && c.toNat ≤ 0x200A) || c.toNat = 0x2028 || c.toNat = 0x2029 ||
  c.toNat = 0x202F || c.toNat = 0x205F || c.toNat = 0x3000

/-- Rust `str::trim`: strip leading and trailing whitespace. -/
def rustTrim (s : String) : String :=
  String.mk (((s.data.dropWhile isRustWhitespace).reverse.dropWhile isRustWhitespace).reverse)

/-- A row of the `context` table: `(project_id, key, value)`, with
`project_id = none` meaning the SQL NULL used for global scope.  This is the
complete schema of the table — it has no other column. -/
structure CtxRow where
  project_id : Option String
  key : String
  value : String
deriving DecidableEq, Repr

/-- The `context` table in rowid (insertion) order. -/
abbrev CtxDb := List CtxRow

/-- The predicate `project_id IS ?1 AND key = ?2` of the context queries
(`IS` is SQL null-safe equality, rendered by equality on `Option String`). -/
def rowMatches (pid : Option String) (key : String) (r : CtxRow) : Bool :=
  r.project_id == pid && r.key == key

/-- `Database::context_set`: trims the key, validates it non-empty and the
value at most `MAX_CONTEXT_VALUE_SIZE` bytes, then runs
`INSERT INTO context VALUES (?1,?2,?3) ON CONFLICT(project_id, key) DO UPDATE SET value = ?3`.
For `project_id = none` the insert binds NULL, which never conflicts with any
existing row (SQLite treats each NULL in the unique index as distinct), so a
fresh row is appended unconditionally.  For `some p` the conflict clause
updates the value of the conflicting row in place, keeping its position. -/
def context_set (db : CtxDb) (project_id : Option String) (key value : String) :
    Except DbError CtxDb :=
  let k := rustTrim key
  if k.isEmpty then .error (.EmptyField "key")
  else if value.utf8ByteSize > MAX_CONTEXT_VALUE_SIZE then
    .error (.ContentTooLarge value.utf8ByteSize MAX_CONTEXT_VALUE_SIZE)
  else
    match project_id with
    | none => .ok (db ++ [⟨none, k, value⟩])
    | some p =>
      if db.any (rowMatches (some p) k) then
        .ok (db.map fun r => if rowMatches (some p) k r then ⟨r.project_id, r.key, value⟩ else r)
      else
        .ok (db ++ [⟨some p, k, value⟩])

/-- `Database::context_get`:
`SELECT value FROM context WHERE project_id IS ?1 AND key = ?2` with
`query_row`, i.e. the value of the first matching row in rowid order, or
`none` when no row matches (`QueryReturnedNoRows`). -/
def context_get (db : CtxDb) (project_id : Option String) (key : String) : Option String :=
  ((db.filter (rowMatches project_id key)).head?).map CtxRow.value

/-- `Database::context_delete`:
`DELETE FROM context WHERE project_id IS ?1 AND key = ?2`; returns the
remaining table and whether any row was removed (`rows > 0`). -/
def context_delete (db : CtxDb) (project_id : Option String) (key : String) : CtxDb × Bool :=
  (db.filter (fun r => !(rowMatches project_id key r)), db.any (rowMatches project_id key))

/-- `Database::context_list`:
`SELECT key FROM context WHERE project_id IS ?1 ORDER BY key`. -/
def context_list (db : CtxDb) (project_id : Option String) : List String :=
  List.insertionSort (· ≤ ·) ((db.filter (fun r => r.project_id == project_id)).map CtxRow.key)

/-- A row of the `messages` table.  `id` is the INTEGER PRIMARY KEY
AUTOINCREMENT rowid; `created_at` is the insertion timestamp (see the header
on the ISO-string-to-`Nat` rendering). -/
structure Msg where
  id : Nat
  project_id : String
  to_agent : String
  from_agent : String
  reference_id : Option String
  content : String
  created_at : Nat
deriving DecidableEq, Repr

/-- The `messages` table: rows in rowid order plus the AUTOINCREMENT counter
(ids are never reused, even after deletion of the largest). -/
structure MsgDb where
  rows : List Msg
  next_id : Nat
deriving DecidableEq, Repr

/-- The queue predicate `project_id = ?1 AND to_agent = ?2`. -/
def inQueue (pid agent : String) (m : Msg) : Bool :=
  m.project_id == pid && m.to_agent == agent

/-- The order in which the index scan behind
`ORDER BY created_at ASC` delivers the rows of one queue: by `created_at`,
ties broken by rowid. -/
def queueLE (a b : Msg) : Prop :=
  a.created_at < b.created_at ∨ (a.created_at = b.created_at ∧ a.id ≤ b.id)

instance : DecidableRel queueLE := fun a b => by
  unfold queueLE
  infer_instance

instance : IsTotal Msg queueLE where
  total a b := by
    unfold queueLE
    omega

instance : IsTrans Msg queueLE where
  trans a b c hab hbc := by
    unfold queueLE at hab hbc ⊢
    omega

/-- `Database::query_messages`:
`SELECT ... WHERE project_id = ?1 AND to_agent = ?2 ORDER BY created_at ASC LIMIT ?3`,
answered through `idx_messages_queue`, hence delivered sorted by
`(created_at, id)`. -/
def query_messages (db : MsgDb) (pid agent : String) (limit : Nat) : List Msg :=
  (List.insertionSort queueLE (db.rows.filter (inQueue pid agent))).take limit

/-- The limit computation shared by receive and peek:
`limit.unwrap_or(100).min(MAX_MESSAGE_LIMIT)`. -/
def effLimit (limit : Option Nat) : Nat :=
  min (limit.getD 100) MAX_MESSAGE_LIMIT

/-- `Database::send_message`: validates `project_id`, `to_agent`, `from_agent`
non-empty after trimming and `content` at most `MAX_MESSAGE_SIZE` bytes, then
inserts the row (id from the AUTOINCREMENT counter, `created_at` from the
clock) and returns the id rendered in decimal
(`last_insert_rowid().to_string()`). -/
def send_message (db : MsgDb) (project_id to_agent from_agent content : String)
    (reference_id : Option String) (now : Nat) : Except DbError (MsgDb × String) :=
  if (rustTrim project_id).isEmpty then .error (.EmptyField "project_id")
  else if (rustTrim to_agent).isEmpty then .error (.EmptyField "to_agent")
  else if (rustTrim from_agent).isEmpty then .error (.EmptyField "from_agent")
  else if content.utf8ByteSize > MAX_MESSAGE_SIZE then
    .error (.ContentTooLarge content.utf8ByteSize MAX_MESSAGE_SIZE)
  else
    .ok ({ rows := db.rows ++ [⟨db.next_id, project_id, to_agent, from_agent,
                                reference_id, content, now⟩],
           next_id := db.next_id + 1 },
         toString db.next_id)

/-- `Database::receive_messages`: queries up to `effLimit limit` messages and,
unless the result is empty, runs `DELETE FROM messages WHERE id IN (...)` on
exactly the returned ids.  Returns the new table and the messages. -/
def receive_messages (db : MsgDb) (pid agent : String) (limit : Option Nat) :
    MsgDb × List Msg :=
  let msgs := query_messages db pid agent (effLimit limit)
  if msgs.isEmpty then (db, msgs)
  else
    ({ db with rows := db.rows.filter fun m => !((msgs.map Msg.id).contains m.id) }, msgs)

/-- `Database::peek_messages`: the same query as `receive_messages` with no
deletion. -/
def peek_messages (db : MsgDb) (pid agent : String) (limit : Option Nat) : List Msg :=
  query_messages db pid agent (effLimit limit)

/-- Rust `<i64 as FromStr>::from_str`: optional `+`/`-` sign followed by one or
more ASCII digits, rejecting anything else and values outside the i64 range. -/
def parseI64 (s : String) : Option Int :=
  match s.data with
  | [] => none
  | c :: cs =>
    let sd : Int × List Char :=
      if c = '-' then (-1, cs) else if c = '+' then (1, cs) else (1, c :: cs)
    if sd.2.isEmpty then none
    else if sd.2.all Char.isDigit then
      let n : Nat := sd.2.foldl (fun acc d => acc * 10 + (d.toNat - 48)) 0
      let v : Int := sd.1 * n
      if -(2 ^ 63) ≤ v && v ≤ 2 ^ 63 - 1 then some v else none
    else none

/-- `Database::delete_message`: parses the id (failing with
`InvalidMessageId` when it is not a numeric i64), then runs
`DELETE FROM messages WHERE id = ?1`, returning whether a row was removed. -/
def delete_message (db : MsgDb) (message_id : String) : Except DbError (MsgDb × Bool) :=
  match parseI64 message_id with
  | none => .error (.InvalidMessageId message_id)
  | some n =>
    .ok ({ db with rows := db.rows.filter fun m => !((m.id : Int) == n) },
         db.rows.any fun m => (m.id : Int) == n)

/-- The message-level operations a caller can run against the engine (the
context operations touch a different table and cannot affect `messages`). -/
inductive MsgOp where
  | send (project_id to_agent from_agent content : String)
      (reference_id : Option String) (now : Nat)
  | receive (project_id agent_id : String) (limit : Option Nat)
  | peek (project_id agent_id : String) (limit : Option Nat)
  | deleteMsg (message_id : String)

/-- State transition of one operation (a failed validation leaves the table
unchanged, as the code returns before any SQL runs). -/
def applyOp (db : MsgDb) : MsgOp → MsgDb
  | .send p t f c r now =>
    match send_message db p t f c r now with
    | .ok (db2, _) => db2
    | .error _ => db
  | .receive p a l => (receive_messages db p a l).1
  | .peek _ _ _ => db
  | .deleteMsg s =>
    match delete_message db s with
    | .ok (db2, _) => db2
    | .error _ => db

/-- State after a sequence of operations. -/
def applyOps (db : MsgDb) (ops : List MsgOp) : MsgDb :=
  ops.foldl applyOp db

/-- The invariant of every reachable message table when the clock supplying
`created_at` never runs backwards: rowid order is strictly increasing in `id`,
nondecreasing in `created_at`, and all ids are below the AUTOINCREMENT
counter. -/
def WFdb (db : MsgDb) : Prop :=
  db.rows.Pairwise (fun a b => a.id < b.id ∧ a.created_at ≤ b.created_at) ∧
  ∀ m ∈ db.rows, m.id < db.next_id

instance (db : MsgDb) : Decidable (WFdb db) := by
  unfold WFdb
  infer_instance

/-- Strict ordering by `(created_at, id)`: the total order the spec asserts of
query results. -/
def strictQueueLT (a b : Msg) : Prop :=
  a.created_at < b.created_at ∨ (a.created_at = b.created_at ∧ a.id < b.id)

/-! ## Helper lemmas -/

/-- Receive returns exactly what the shared query (and hence peek) returns. -/
theorem receive_messages_snd (db : MsgDb) (p a : String) (l : Option Nat) :
    (receive_messages db p a l).2 = peek_messages db p a l := by
  by_cases h : (query_messages db p a (effLimit l)).isEmpty = true <;>
    simp [receive_messages, peek_messages, h]

/-- Every queried message is a row of the table. -/
theorem mem_rows_of_mem_query {db : MsgDb} {p a : String} {k : Nat} {m : Msg}
    (h : m ∈ query_messages db p a k) : m ∈ db.rows := by
  unfold query_messages at h
  have h1 := List.mem_of_mem_take h
  have h2 := (List.perm_insertionSort queueLE (db.rows.filter (inQueue p a))).mem_iff.mp h1
  exact List.mem_of_mem_filter h2

/-- Every peeked message is a row of the table. -/
theorem mem_rows_of_mem_peek {db : MsgDb} {p a : String} {l : Option Nat} {m : Msg}
    (h : m ∈ peek_messages db p a l) : m ∈ db.rows :=
  mem_rows_of_mem_query h

/-- Successful global set always appends a fresh row (the NULL never
conflicts, so the upsert clause never fires). -/
theorem context_set_none_ok {db : CtxDb} {k v : String}
    (h1 : (rustTrim k).isEmpty = false) (h2 : v.utf8ByteSize ≤ MAX_CONTEXT_VALUE_SIZE) :
    context_set db none k v = .ok (db ++ [⟨none, rustTrim k, v⟩]) := by
  simp [context_set, h1, show ¬ v.utf8ByteSize > MAX_CONTEXT_VALUE_SIZE by omega]

/-- Successful project set with no conflicting row appends a fresh row. -/
theorem context_set_some_fresh {db : CtxDb} {q k v : String}
    (h1 : (rustTrim k).isEmpty = false) (h2 : v.utf8ByteSize ≤ MAX_CONTEXT_VALUE_SIZE)
    (h3 : db.any (rowMatches (some q) (rustTrim k)) = false) :
    context_set db (some q) k v = .ok (db ++ [⟨some q, rustTrim k, v⟩]) := by
  simp [context_set, h1, h3, show ¬ v.utf8ByteSize > MAX_CONTEXT_VALUE_SIZE by omega]

/-- Successful project set with a conflicting row updates values in place. -/
theorem context_set_some_update {db : CtxDb} {q k v : String}
    (h1 : (rustTrim k).isEmpty = false) (h2 : v.utf8ByteSize ≤ MAX_CONTEXT_VALUE_SIZE)
    (h3 : db.any (rowMatches (some q) (rustTrim k)) = true) :
    context_set db (some q) k v
      = .ok (db.map fun r =>
          if rowMatches (some q) (rustTrim k) r then ⟨r.project_id, r.key, v⟩ else r) := by
  simp [context_set, h1, h3, show ¬ v.utf8ByteSize > MAX_CONTEXT_VALUE_SIZE by omega]

/-- Filtering after a map that fixes the passing rows and preserves the
predicate is filtering alone. -/
theorem filter_map_fix {α : Type} {f : α → α} {P : α → Bool}
    (hPf : ∀ r, P (f r) = P r) (hfix : ∀ r, P r = true → f r = r) :
    ∀ l : List α, (l.map f).filter P = l.filter P := by
  intro l
  induction l with
  | nil => rfl
  | cons r l ih =>
    by_cases hP : P r = true
    · simp [List.filter_cons, hPf, hP, hfix r hP, ih]
    · simp [List.filter_cons, hPf, hP, ih]

/-- A global set leaves every project-scoped lookup unchanged. -/
theorem context_get_some_after_set_none {db db2 : CtxDb} {k2 v2 : String}
    (h : context_set db none k2 v2 = .ok db2) (q k3 : String) :
    context_get db2 (some q) k3 = context_get db (some q) k3 := by
  by_cases h1 : (rustTrim k2).isEmpty = true
  · simp [context_set, h1] at h
  · by_cases h2 : MAX_CONTEXT_VALUE_SIZE < v2.utf8ByteSize
    · simp [context_set, h1, h2] at h
    · have he := @context_set_none_ok db k2 v2 (by simpa using h1) (by omega)
      rw [h] at he
      injection he with he
      subst he
      unfold context_get
      rw [List.filter_append]
      have hf : ([⟨none, rustTrim k2, v2⟩] : CtxDb).filter (rowMatches (some q) k3) = [] := by
        simp [rowMatches]
      simp [hf]

/-- A project set leaves every global lookup unchanged. -/
theorem context_get_none_after_set_some {db db2 : CtxDb} {q k2 v2 : String}
    (h : context_set db (some q) k2 v2 = .ok db2) (k3 : String) :
    context_get db2 none k3 = context_get db none k3 := by
  by_cases h1 : (rustTrim k2).isEmpty = true
  · simp [context_set, h1] at h
  · by_cases h2 : MAX_CONTEXT_VALUE_SIZE < v2.utf8ByteSize
    · simp [context_set, h1, h2] at h
    · by_cases h3 : db.any (rowMatches (some q) (rustTrim k2)) = true
      · have he := @context_set_some_update db q k2 v2 (by simpa using h1) (by omega) h3
        rw [h] at he
        injection he with he
        subst he
        unfold context_get
        rw [filter_map_fix]
        · intro r
          by_cases hr : rowMatches (some q) (rustTrim k2) r = true
          · rw [if_pos hr]
            rfl
          · rw [if_neg hr]
        · intro r hP
          have hc : r.project_id = none ∧ r.key = k3 := by simpa [rowMatches] using hP
          have h4 : ¬ rowMatches (some q) (rustTrim k2) r = true := by
            simp [rowMatches, hc.1]
          rw [if_neg h4]
      · have he := @context_set_some_fresh db q k2 v2 (by simpa using h1) (by omega)
          (by simpa using h3)
        rw [h] at he
        injection he with he
        subst he
        unfold context_get
        rw [List.filter_append]
        have hf : ([⟨some q, rustTrim k2, v2⟩] : CtxDb).filter (rowMatches none k3) = [] := by
          simp [rowMatches]
        simp [hf]

/-! ## Claim theorems -/

/-- Claim C2 (status: code_bug).  Evaluation of the code at the failing input:
on the Global scope the upsert is broken.  Starting from the empty store,
`set(Global, "k", "a")` then `set(Global, "k", "b")` leaves TWO rows for the
pair `(Global, "k")` (SQLite's NULL-distinct rule keeps the
`ON CONFLICT(project_id, key) DO UPDATE` clause from ever firing when
`project_id` is NULL), and `get(Global, "k")` returns the FIRST value `"a"`,
not `"b"` — contradicting both the at-most-one-entry invariant and the
overwrite property claimed for every scope.  The schema's
`PRIMARY KEY (project_id, key)` and the conflict clause show the code's own
intent was the claimed upsert. -/
theorem context_global_upsert_bug :
    context_set ([] : CtxDb) none "k" "a" = .ok [⟨none, "k", "a"⟩] ∧
    context_set [⟨none, "k", "a"⟩] none "k" "b" = .ok [⟨none, "k", "a"⟩, ⟨none, "k", "b"⟩] ∧
    context_get [⟨none, "k", "a"⟩, ⟨none, "k", "b"⟩] none "k" = some "a" ∧
    context_get [⟨none, "k", "a"⟩, ⟨none, "k", "b"⟩] none "k" ≠ some "b" ∧
    (([⟨none, "k", "a"⟩, ⟨none, "k", "b"⟩] : CtxDb).filter (rowMatches none "k")).length = 2 := by
  decide

/-- Claim C4 (status: confirmed).  Peek is idempotent and non-destructive: it
never changes the table, any number of repetitions leaves the table as it was
(so the same list is returned each time until an intervening mutation), its
selection is literally the same query as receive's for every limit, the
default limit is 100, and limits of 500 or more behave as 500. -/
theorem peek_idempotent_non_destructive (db : MsgDb) (p a : String) (l : Option Nat) :
    applyOp db (.peek p a l) = db ∧
    (∀ n : Nat, applyOps db (List.replicate n (.peek p a l)) = db) ∧
    peek_messages db p a l = (receive_messages db p a l).2 ∧
    peek_messages db p a none = peek_messages db p a (some 100) ∧
    (∀ u : Nat, MAX_MESSAGE_LIMIT ≤ u →
      peek_messages db p a (some u) = peek_messages db p a (some MAX_MESSAGE_LIMIT)) := by
  refine ⟨rfl, ?_, (receive_messages_snd db p a l).symm, rfl, ?_⟩
  · intro n
    induction n with
    | zero => rfl
    | succ n ih =>
      simpa [applyOps, List.replicate_succ, List.foldl_cons] using ih
  · intro u hu
    unfold peek_messages effLimit
    have : min u MAX_MESSAGE_LIMIT = MAX_MESSAGE_LIMIT := Nat.min_eq_right hu
    simp [this]

/-- Claim C4 witness: the theorem applied at a concrete table and limit. -/
theorem peek_idempotent_non_destructive_witness :
    applyOp ⟨[⟨0, "p", "b", "x", none, "c", 1⟩], 1⟩ (.peek "p" "b" (some 2))
        = ⟨[⟨0, "p", "b", "x", none, "c", 1⟩], 1⟩ ∧
    (∀ n : Nat, applyOps ⟨[⟨0, "p", "b", "x", none, "c", 1⟩], 1⟩
        (List.replicate n (.peek "p" "b" (some 2))) = ⟨[⟨0, "p", "b", "x", none, "c", 1⟩], 1⟩) ∧
    peek_messages ⟨[⟨0, "p", "b", "x", none, "c", 1⟩], 1⟩ "p" "b" (some 2)
        = (receive_messages ⟨[⟨0, "p", "b", "x", none, "c", 1⟩], 1⟩ "p" "b" (some 2)).2 ∧
    peek_messages ⟨[⟨0, "p", "b", "x", none, "c", 1⟩], 1⟩ "p" "b" none
        = peek_messages ⟨[⟨0, "p", "b", "x", none, "c", 1⟩], 1⟩ "p" "b" (some 100) ∧
    (∀ u : Nat, MAX_MESSAGE_LIMIT ≤ u →
      peek_messages ⟨[⟨0, "p", "b", "x", none, "c", 1⟩], 1⟩ "p" "b" (some u)
        = peek_messages ⟨[⟨0, "p", "b", "x", none, "c", 1⟩], 1⟩ "p" "b" (some MAX_MESSAGE_LIMIT)) :=
  peek_idempotent_non_destructive ⟨[⟨0, "p", "b", "x", none, "c", 1⟩], 1⟩ "p" "b" (some 2)

/-- Claim C7 (status: confirmed).  The engine's send fails with
`EmptyField` naming the offending field exactly when `project_id`, `to_agent`
or `from_agent` is empty after trimming (checked in that order — in
particular the engine itself rejects an empty `from_agent` rather than
defaulting it), fails with `ContentTooLarge (size, limit)` exactly when the
content exceeds `MAX_MESSAGE_SIZE` = 1,048,576 bytes, and on every validation
failure the table is unchanged (`applyOp` fixes the state exactly when send
does not succeed), so any subsequent peek returns what it returned before. -/
theorem send_message_validation (db : MsgDb) (p t f c : String) (r : Option String) (now : Nat) :
    (send_message db p t f c r now = .error (.EmptyField "project_id") ↔
      (rustTrim p).isEmpty = true) ∧
    (send_message db p t f c r now = .error (.EmptyField "to_agent") ↔
      ((rustTrim p).isEmpty = false ∧ (rustTrim t).isEmpty = true)) ∧
    (send_message db p t f c r now = .error (.EmptyField "from_agent") ↔
      ((rustTrim p).isEmpty = false ∧ (rustTrim t).isEmpty = false ∧
        (rustTrim f).isEmpty = true)) ∧
    (send_message db p t f c r now = .error (.ContentTooLarge c.utf8ByteSize MAX_MESSAGE_SIZE) ↔
      ((rustTrim p).isEmpty = false ∧ (rustTrim t).isEmpty = false ∧
        (rustTrim f).isEmpty = false ∧ MAX_MESSAGE_SIZE < c.utf8ByteSize)) ∧
    ((∃ e, send_message db p t f c r now = .error e) ↔
      ((rustTrim p).isEmpty = true ∨ (rustTrim t).isEmpty = true ∨
        (rustTrim f).isEmpty = true ∨ MAX_MESSAGE_SIZE < c.utf8ByteSize)) ∧
    ((applyOp db (.send p t f c r now) = db) ↔ (send_message db p t f c r now).isOk = false) := by
  by_cases h1 : (rustTrim p).isEmpty = true
  · simp [send_message, applyOp, h1, Except.isOk, Except.toBool]
  · by_cases h2 : (rustTrim t).isEmpty = true
    · simp [send_message, applyOp, h1, h2, Except.isOk, Except.toBool]
    · by_cases h3 : (rustTrim f).isEmpty = true
      · simp [send_message, applyOp, h1, h2, h3, Except.isOk, Except.toBool]
      · by_cases h4 : MAX_MESSAGE_SIZE < c.utf8ByteSize
        · simp [send_message, applyOp, h1, h2, h3, h4, Except.isOk, Except.toBool]
        · simp [send_message, applyOp, h1, h2, h3, h4, Except.isOk, Except.toBool]
          intro h
          have h5 := congrArg MsgDb.next_id h
          simp at h5

/-- Claim C8 (status: confirmed).  Context set fails with `EmptyField "key"`
exactly when the key trims to the empty string (for every scope), fails with
`ContentTooLarge (size, limit)` exactly when the value exceeds
`MAX_CONTEXT_VALUE_SIZE` = 65,536 bytes, and succeeds in every other case —
in particular a value of exactly 65,536 bytes succeeds and one of 65,537
bytes fails, as the two biconditionals decide at the boundary. -/
theorem context_set_validation (db : CtxDb) (pid : Option String) (k v : String) :
    (context_set db pid k v = .error (.EmptyField "key") ↔ (rustTrim k).isEmpty = true) ∧
    (context_set db pid k v = .error (.ContentTooLarge v.utf8ByteSize MAX_CONTEXT_VALUE_SIZE) ↔
      ((rustTrim k).isEmpty = false ∧ MAX_CONTEXT_VALUE_SIZE < v.utf8ByteSize)) ∧
    ((∃ db2, context_set db pid k v = .ok db2) ↔
      ((rustTrim k).isEmpty = false ∧ v.utf8ByteSize ≤ MAX_CONTEXT_VALUE_SIZE)) := by
  by_cases h1 : (rustTrim k).isEmpty = true
  · simp [context_set, h1]
  · by_cases h2 : MAX_CONTEXT_VALUE_SIZE < v.utf8ByteSize
    · simp [context_set, h1, h2]
    · cases pid with
      | none => simp [context_set, h1, h2]; omega
      | some p =>
        by_cases h3 : db.any (rowMatches (some p) (rustTrim k)) = true <;>
          simp [context_set, h1, h2, h3] <;> omega

/-- Claim C9 (status: confirmed).  `delete_message` fails with
`InvalidMessageId` exactly when the id does not parse as an i64; for every
well-formed numeric id it succeeds, returning `true` exactly when a message
with that id existed (which it removes, and only it), and `false` otherwise,
leaving the table completely unchanged in the `false` case. -/
theorem delete_message_semantics (db : MsgDb) (s : String) :
    (delete_message db s = .error (.InvalidMessageId s) ↔ parseI64 s = none) ∧
    ((∃ e, delete_message db s = .error e) ↔ parseI64 s = none) ∧
    (∀ n : Int, parseI64 s = some n →
      ∃ db2 b, delete_message db s = .ok (db2, b) ∧
        (b = true ↔ ∃ m ∈ db.rows, (m.id : Int) = n) ∧
        (∀ m ∈ db2.rows, (m.id : Int) ≠ n) ∧
        (∀ m ∈ db.rows, (m.id : Int) ≠ n → m ∈ db2.rows) ∧
        db2.next_id = db.next_id ∧
        (b = false → db2 = db)) := by
  cases hp : parseI64 s with
  | none => simp [delete_message, hp]
  | some n =>
    refine ⟨by simp [delete_message, hp], by simp [delete_message, hp], ?_⟩
    intro n2 hn2
    cases hn2
    refine ⟨{ db with rows := db.rows.filter fun m => !((m.id : Int) == n) },
            db.rows.any (fun m => (m.id : Int) == n), ?_, ?_, ?_, ?_, rfl, ?_⟩
    · simp [delete_message, hp]
    · simp [List.any_eq_true]
    · intro m hm
      have := (List.mem_filter.mp hm).2
      simpa using this
    · intro m hm hne
      exact List.mem_filter.mpr ⟨hm, by simpa using hne⟩
    · intro hb
      simp only [List.any_eq_false] at hb
      have hfix : db.rows.filter (fun m => !((m.id : Int) == n)) = db.rows :=
        List.filter_eq_self.mpr (fun m hm => by simpa using hb m hm)
      simp [hfix]

/-- Claim C9 witness: the theorem applied at a concrete table, covering a
well-formed id that is present. -/
theorem delete_message_semantics_witness :
    (delete_message ⟨[⟨1, "p", "b", "x", none, "c", 1⟩], 2⟩ "1"
        = .error (.InvalidMessageId "1") ↔ parseI64 "1" = none) ∧
    ((∃ e, delete_message ⟨[⟨1, "p", "b", "x", none, "c", 1⟩], 2⟩ "1" = .error e) ↔
      parseI64 "1" = none) ∧
    (∀ n : Int, parseI64 "1" = some n →
      ∃ db2 b, delete_message ⟨[⟨1, "p", "b", "x", none, "c", 1⟩], 2⟩ "1" = .ok (db2, b) ∧
        (b = true ↔ ∃ m ∈ ([⟨1, "p", "b", "x", none, "c", 1⟩] : List Msg), (m.id : Int) = n) ∧
        (∀ m ∈ db2.rows, (m.id : Int) ≠ n) ∧
        (∀ m ∈ ([⟨1, "p", "b", "x", none, "c", 1⟩] : List Msg), (m.id : Int) ≠ n → m ∈ db2.rows) ∧
        db2.next_id = 2 ∧
        (b = false → db2 = ⟨[⟨1, "p", "b", "x", none, "c", 1⟩], 2⟩)) :=
  delete_message_semantics ⟨[⟨1, "p", "b", "x", none, "c", 1⟩], 2⟩ "1"

/-- Claim C3 (status: confirmed).  Global and project scopes are independent
namespaces.  First conjunct: the spec's scenario from the empty store —
`set(Project p, k, a)` then `set(Global, k, b)` makes `get(Project p, k)`
return `a` and `get(Global, k)` return `b`.  Second and third conjuncts: from
EVERY store, a successful global set changes no project-scoped lookup, and a
successful project set changes no global lookup. -/
theorem global_project_scopes_independent (k p a b : String)
    (hk : rustTrim k = k) (hne : k.isEmpty = false)
    (ha : a.utf8ByteSize ≤ MAX_CONTEXT_VALUE_SIZE)
    (hb : b.utf8ByteSize ≤ MAX_CONTEXT_VALUE_SIZE) :
    (context_set ([] : CtxDb) (some p) k a = .ok [⟨some p, k, a⟩] ∧
     context_set [⟨some p, k, a⟩] none k b = .ok [⟨some p, k, a⟩, ⟨none, k, b⟩] ∧
     context_get [⟨some p, k, a⟩, ⟨none, k, b⟩] (some p) k = some a ∧
     context_get [⟨some p, k, a⟩, ⟨none, k, b⟩] none k = some b) ∧
    (∀ (db db2 : CtxDb) (k2 v2 q k3 : String),
      context_set db none k2 v2 = .ok db2 →
      context_get db2 (some q) k3 = context_get db (some q) k3) ∧
    (∀ (db db2 : CtxDb) (q k2 v2 k3 : String),
      context_set db (some q) k2 v2 = .ok db2 →
      context_get db2 none k3 = context_get db none k3) := by
  have h1 : (rustTrim k).isEmpty = false := by rw [hk]; exact hne
  refine ⟨⟨?_, ?_, ?_, ?_⟩, ?_, ?_⟩
  · have hs := @context_set_some_fresh ([] : CtxDb) p k a h1 ha (by simp)
    simpa [hk] using hs
  · have hs := @context_set_none_ok [⟨some p, k, a⟩] k b h1 hb
    simpa [hk] using hs
  · simp [context_get, rowMatches, List.filter_cons]
  · simp [context_get, rowMatches, List.filter_cons]
  · intro db db2 k2 v2 q k3 h
    exact context_get_some_after_set_none h q k3
  · intro db db2 q k2 v2 k3 h
    exact context_get_none_after_set_some h k3

/-- Claim C3 witness: the theorem applied at concrete key, project and
values. -/
theorem global_project_scopes_independent_witness :
    (context_set ([] : CtxDb) (some "p") "k" "a" = .ok [⟨some "p", "k", "a"⟩] ∧
     context_set [⟨some "p", "k", "a"⟩] none "k" "b"
        = .ok [⟨some "p", "k", "a"⟩, ⟨none, "k", "b"⟩] ∧
     context_get [⟨some "p", "k", "a"⟩, ⟨none, "k", "b"⟩] (some "p") "k" = some "a" ∧
     context_get [⟨some "p", "k", "a"⟩, ⟨none, "k", "b"⟩] none "k" = some "b") ∧
    (∀ (db db2 : CtxDb) (k2 v2 q k3 : String),
      context_set db none k2 v2 = .ok db2 →
      context_get db2 (some q) k3 = context_get db (some q) k3) ∧
    (∀ (db db2 : CtxDb) (q k2 v2 k3 : String),
      context_set db (some q) k2 v2 = .ok db2 →
      context_get db2 none k3 = context_get db none k3) :=
  global_project_scopes_independent "k" "p" "a" "b" (by decide) (by decide)
    (by decide) (by decide)

/-- Claim C6 (status: corrected), counterexample to the claim as stated.
The complete store the code produces on a successful set is listed exactly:
a fresh global set stores the triple `(NULL, "k", "v")` and a project-scope
overwrite stores the triple `(p, "k", "b")` — the unified `context` table of
`db.rs` has columns `(project_id, key, value)` only, so there is no
`updated_at` for any set to initialise or refresh.  (The `updated_at` column
exists only in `context.rs`, a file that is not compiled into the crate.) -/
theorem context_set_no_updated_at_cex :
    context_set ([] : CtxDb) none "k" "v" = .ok [⟨none, "k", "v"⟩] ∧
    context_set [⟨some "p", "k", "a"⟩] (some "p") "k" "b" = .ok [⟨some "p", "k", "b"⟩] := by
  decide

/-- Claim C6 as amended (status: corrected).  Every successful context set
stores only `(scope, trimmed key, value)` triples: each row of the resulting
store is either an unchanged pre-existing row or carries exactly the scope,
the trimmed key and the new value.  No timestamp is stored or refreshed —
the row has no `updated_at` field at all. -/
theorem context_set_stores_triple_only (db : CtxDb) (pid : Option String) (k v : String)
    (db2 : CtxDb) (h : context_set db pid k v = .ok db2) :
    ∀ r ∈ db2, r ∈ db ∨ r = ⟨pid, rustTrim k, v⟩ := by
  by_cases h1 : (rustTrim k).isEmpty = true
  · simp [context_set, h1] at h
  · by_cases h2 : MAX_CONTEXT_VALUE_SIZE < v.utf8ByteSize
    · simp [context_set, h1, h2] at h
    · cases pid with
      | none =>
        have he := @context_set_none_ok db k v (by simpa using h1) (by omega)
        rw [h] at he
        injection he with he
        subst he
        intro r hr
        rcases List.mem_append.mp hr with hl | hr2
        · exact Or.inl hl
        · simp at hr2
          exact Or.inr hr2
      | some q =>
        by_cases h3 : db.any (rowMatches (some q) (rustTrim k)) = true
        · have he := @context_set_some_update db q k v (by simpa using h1) (by omega) h3
          rw [h] at he
          injection he with he
          subst he
          intro r hr
          rcases List.mem_map.mp hr with ⟨r0, hr0, hfr⟩
          by_cases hm : rowMatches (some q) (rustTrim k) r0 = true
          · rw [if_pos hm] at hfr
            have hc : r0.project_id = some q ∧ r0.key = rustTrim k := by
              simpa [rowMatches] using hm
            right
            rw [← hfr]
            cases r0
            simp_all
          · rw [if_neg hm] at hfr
            exact Or.inl (hfr ▸ hr0)
        · have he := @context_set_some_fresh db q k v (by simpa using h1) (by omega)
            (by simpa using h3)
          rw [h] at he
          injection he with he
          subst he
          intro r hr
          rcases List.mem_append.mp hr with hl | hr2
          · exact Or.inl hl
          · simp at hr2
            exact Or.inr hr2

/-- Claim C6 witness: the amended theorem applied at a concrete store and
row. -/
theorem context_set_stores_triple_only_witness :
    (⟨none, "k", "v"⟩ : CtxRow) ∈ ([] : CtxDb) ∨
      (⟨none, "k", "v"⟩ : CtxRow) = ⟨none, rustTrim "k", "v"⟩ :=
  context_set_stores_triple_only [] none "k" "v" [⟨none, "k", "v"⟩] (by decide)
    ⟨none, "k", "v"⟩ (by decide)

/-- Claim C10 (status: corrected), counterexample to the claim as stated.
From the reachable store holding the global entry `("k", "old")`, the set
`set(Global, " k ", "v")` succeeds, and the trim-asymmetry parts of the claim
hold (`get`/`delete` with the untrimmed key find nothing); but
`get(Global, trim " k ") = get(Global, "k")` returns the OLD value `"old"`,
not `"v"`, because the global upsert never overwrites (claim C2's bug). -/
theorem untrimmed_get_counterexample :
    context_set ([] : CtxDb) none "k" "old" = .ok [⟨none, "k", "old"⟩] ∧
    context_set [⟨none, "k", "old"⟩] none " k " "v"
        = .ok [⟨none, "k", "old"⟩, ⟨none, "k", "v"⟩] ∧
    rustTrim " k " = "k" ∧
    context_get [⟨none, "k", "old"⟩, ⟨none, "k", "v"⟩] none " k " = none ∧
    (context_delete [⟨none, "k", "old"⟩, ⟨none, "k", "v"⟩] none " k ").2 = false ∧
    context_get [⟨none, "k", "old"⟩, ⟨none, "k", "v"⟩] none "k" = some "old" ∧
    context_get [⟨none, "k", "old"⟩, ⟨none, "k", "v"⟩] none "k" ≠ some "v" := by
  decide

/-- Claim C10 as amended (status: corrected).  Key trimming is asymmetric:
set trims before storing, get and delete use the key verbatim.  For every
store whose keys are all trimmed (true of every reachable store) and every
key `k` with surrounding whitespace whose set succeeds: get and delete with
the untrimmed `k` find nothing and change nothing, while
`get(scope, trim k)` returns the value just set — unconditionally for
project scopes, and for the global scope provided no global entry for
`trim k` predates the set (otherwise the C2 global-duplicate bug makes get
return the oldest stored value instead). -/
theorem set_trims_but_get_delete_do_not (db : CtxDb) (scope : Option String) (k v : String)
    (hkeys : ∀ r ∈ db, rustTrim r.key = r.key)
    (hws : rustTrim k ≠ k)
    (hne : (rustTrim k).isEmpty = false)
    (hsz : v.utf8ByteSize ≤ MAX_CONTEXT_VALUE_SIZE)
    (hfresh : scope = none → ∀ r ∈ db, rowMatches none (rustTrim k) r = false) :
    ∃ db2, context_set db scope k v = .ok db2 ∧
      context_get db2 scope k = none ∧
      (context_delete db2 scope k).2 = false ∧
      (context_delete db2 scope k).1 = db2 ∧
      context_get db2 scope (rustTrim k) = some v := by
  have hold : ∀ r ∈ db, r.key ≠ k := by
    intro r hr hcontra
    exact hws (hcontra ▸ hkeys r hr)
  obtain ⟨db2, hset, hnok, hget⟩ :
      ∃ db2, context_set db scope k v = .ok db2 ∧
        (∀ r ∈ db2, r.key ≠ k) ∧ context_get db2 scope (rustTrim k) = some v := by
    cases scope with
    | none =>
      refine ⟨db ++ [⟨none, rustTrim k, v⟩], context_set_none_ok hne hsz, ?_, ?_⟩
      · intro r hr
        rcases List.mem_append.mp hr with hl | hr2
        · exact hold r hl
        · simp at hr2
          rw [hr2]
          exact hws
      · unfold context_get
        rw [List.filter_append]
        have hnil : db.filter (rowMatches none (rustTrim k)) = [] :=
          List.filter_eq_nil_iff.mpr fun r hr => by simp [hfresh rfl r hr]
        simp [hnil, rowMatches]
    | some q =>
      by_cases h3 : db.any (rowMatches (some q) (rustTrim k)) = true
      · refine ⟨_, context_set_some_update hne hsz h3, ?_, ?_⟩
        · intro r hr
          rcases List.mem_map.mp hr with ⟨r0, hr0, hfr⟩
          have hkey : r.key = r0.key := by
            by_cases hm : rowMatches (some q) (rustTrim k) r0 = true
            · rw [if_pos hm] at hfr
              rw [← hfr]
            · rw [if_neg hm] at hfr
              rw [← hfr]
          rw [hkey]
          exact hold r0 hr0
        · unfold context_get
          rw [List.filter_map]
          rw [List.filter_congr (fun r hr => ?_), List.head?_map, Option.map_map]
          case _ =>
            cases hfq : db.filter (rowMatches (some q) (rustTrim k)) with
            | nil =>
              obtain ⟨r0, hr0, hP0⟩ := List.any_eq_true.mp h3
              have hmem : r0 ∈ db.filter (rowMatches (some q) (rustTrim k)) :=
                List.mem_filter.mpr ⟨hr0, hP0⟩
              rw [hfq] at hmem
              cases hmem
            | cons r1 t =>
              have hr1 : r1 ∈ db.filter (rowMatches (some q) (rustTrim k)) := by
                rw [hfq]
                exact List.mem_cons_self r1 t
              have hP1 : rowMatches (some q) (rustTrim k) r1 = true :=
                (List.mem_filter.mp hr1).2
              simp [if_pos hP1]
          case _ =>
            by_cases hm : rowMatches (some q) (rustTrim k) r = true
            · rw [Function.comp_apply, if_pos hm]
              rw [hm]
              have hc : r.project_id = some q ∧ r.key = rustTrim k := by
                simpa [rowMatches] using hm
              simp [rowMatches, hc.1, hc.2]
            · rw [Function.comp_apply, if_neg hm]
      · refine ⟨_, context_set_some_fresh hne hsz (by simpa using h3), ?_, ?_⟩
        · intro r hr
          rcases List.mem_append.mp hr with hl | hr2
          · exact hold r hl
          · simp at hr2
            rw [hr2]
            exact hws
        · unfold context_get
          rw [List.filter_append]
          have hnil : db.filter (rowMatches (some q) (rustTrim k)) = [] :=
            List.filter_eq_nil_iff.mpr fun r hr => by
              simpa using (List.any_eq_false.mp (by simpa using h3)) r hr
          simp [hnil, rowMatches]
  have hmatchfalse : ∀ r ∈ db2, rowMatches scope k r = false := by
    intro r hr
    by_cases hm : rowMatches scope k r = true
    · have hc : r.project_id = scope ∧ r.key = k := by simpa [rowMatches] using hm
      exact absurd hc.2 (hnok r hr)
    · simpa using hm
  refine ⟨db2, hset, ?_, ?_, ?_, hget⟩
  · unfold context_get
    have hnil : db2.filter (rowMatches scope k) = [] :=
      List.filter_eq_nil_iff.mpr fun r hr => by simp [hmatchfalse r hr]
    simp [hnil]
  · unfold context_delete
    simpa [List.any_eq_false] using fun r hr => by simp [hmatchfalse r hr]
  · unfold context_delete
    simp only
    exact List.filter_eq_self.mpr fun r hr => by simp [hmatchfalse r hr]

/-- Claim C10 witness: the amended theorem applied at the empty store with a
project scope and the whitespace-wrapped key `" k "`. -/
theorem set_trims_but_get_delete_do_not_witness :
    ∃ db2, context_set ([] : CtxDb) (some "p") " k " "v" = .ok db2 ∧
      context_get db2 (some "p") " k " = none ∧
      (context_delete db2 (some "p") " k ").2 = false ∧
      (context_delete db2 (some "p") " k ").1 = db2 ∧
      context_get db2 (some "p") (rustTrim " k ") = some "v" :=
  set_trims_but_get_delete_do_not [] (some "p") " k " "v" (by decide) (by decide)
    (by decide) (by decide) (by decide)

/-- Claim C5 (status: confirmed).  When the rows carry pairwise-distinct ids
increasing in rowid order (true of every reachable table), both peek and
receive return lists that are strictly sorted by `(created_at, id)`: any two
returned messages with equal timestamps appear ordered by id. -/
theorem queue_results_sorted (db : MsgDb) (p a : String) (l : Option Nat)
    (hids : db.rows.Pairwise (fun x y => x.id < y.id)) :
    (peek_messages db p a l).Pairwise strictQueueLT ∧
    ((receive_messages db p a l).2).Pairwise strictQueueLT := by
  have hpeek : (peek_messages db p a l).Pairwise strictQueueLT := by
    have hsorted : (List.insertionSort queueLE (db.rows.filter (inQueue p a))).Pairwise queueLE :=
      List.sorted_insertionSort queueLE _
    have hne0 : (db.rows.filter (inQueue p a)).Pairwise (fun x y : Msg => x.id ≠ y.id) :=
      (hids.filter _).imp (fun h => Nat.ne_of_lt h)
    have hneS : (List.insertionSort queueLE (db.rows.filter (inQueue p a))).Pairwise
        (fun x y : Msg => x.id ≠ y.id) :=
      ((List.perm_insertionSort queueLE _).pairwise_iff (fun h => h.symm)).mpr hne0
    have hcomb := hsorted.and hneS
    have htake := List.Pairwise.sublist (List.take_sublist (effLimit l) _) hcomb
    refine htake.imp ?_
    intro x y h
    rcases h with ⟨hle, hne⟩
    unfold queueLE at hle
    unfold strictQueueLT
    omega
  refine ⟨hpeek, ?_⟩
  rw [receive_messages_snd]
  exact hpeek

/-- Concrete table for the claim C5 witness: two messages in the same queue
with colliding timestamps. -/
def dbW5 : MsgDb :=
  ⟨[⟨0, "p", "b", "x", none, "c", 5⟩, ⟨1, "p", "b", "x", none, "c", 5⟩], 2⟩

/-- Claim C5 witness: the theorem applied at a concrete table with a
timestamp collision. -/
theorem queue_results_sorted_witness :
    (peek_messages dbW5 "p" "b" none).Pairwise strictQueueLT ∧
    ((receive_messages dbW5 "p" "b" none).2).Pairwise strictQueueLT :=
  queue_results_sorted dbW5 "p" "b" none (by decide)

/-- Inversion of a successful send: the row is appended with the counter id
and the counter advances. -/
theorem send_message_ok_inv {db : MsgDb} {p t f c : String} {r : Option String} {now : Nat}
    {db2 : MsgDb} {s : String} (h : send_message db p t f c r now = .ok (db2, s)) :
    db2 = ⟨db.rows ++ [⟨db.next_id, p, t, f, r, c, now⟩], db.next_id + 1⟩ := by
  by_cases h1 : (rustTrim p).isEmpty = true
  · simp [send_message, h1] at h
  · by_cases h2 : (rustTrim t).isEmpty = true
    · simp [send_message, h1, h2] at h
    · by_cases h3 : (rustTrim f).isEmpty = true
      · simp [send_message, h1, h2, h3] at h
      · by_cases h4 : MAX_MESSAGE_SIZE < c.utf8ByteSize
        · simp [send_message, h1, h2, h3, h4] at h
        · simp [send_message, h1, h2, h3, h4] at h
          exact h.1.symm

/-- Inversion of a successful delete: some id was parsed and exactly its
rows are filtered out. -/
theorem delete_message_ok_inv {db : MsgDb} {s : String} {db2 : MsgDb} {b : Bool}
    (h : delete_message db s = .ok (db2, b)) :
    ∃ n : Int, db2 = { db with rows := db.rows.filter fun m => !((m.id : Int) == n) } := by
  cases hp : parseI64 s with
  | none => simp [delete_message, hp] at h
  | some n =>
    simp [delete_message, hp] at h
    exact ⟨n, h.1.symm⟩

/-- Receive never changes the AUTOINCREMENT counter. -/
theorem receive_fst_next (db : MsgDb) (p a : String) (l : Option Nat) :
    (receive_messages db p a l).1.next_id = db.next_id := by
  by_cases h : (query_messages db p a (effLimit l)).isEmpty = true <;>
    simp [receive_messages, h]

/-- Rows surviving a receive were rows before it. -/
theorem receive_fst_mem {db : MsgDb} {p a : String} {l : Option Nat} {m : Msg}
    (hm : m ∈ (receive_messages db p a l).1.rows) : m ∈ db.rows := by
  by_cases h : (query_messages db p a (effLimit l)).isEmpty = true
  · simpa [receive_messages, h] using hm
  · simp [receive_messages, h] at hm
    exact hm.1

/-- The ids `S` stay out of the table: no row carries one of them and the
AUTOINCREMENT counter is beyond all of them (so no future insert can mint
one again). -/
def NotConsumed (S : List Nat) (state : MsgDb) : Prop :=
  (∀ m ∈ state.rows, m.id ∉ S) ∧ (∀ i ∈ S, i < state.next_id)

/-- Every operation either keeps old rows (possibly dropping some) or
appends a row carrying the current counter, and never decreases the
counter. -/
theorem applyOp_mem (state : MsgDb) (op : MsgOp) :
    (∀ m ∈ (applyOp state op).rows, m ∈ state.rows ∨ m.id = state.next_id) ∧
    state.next_id ≤ (applyOp state op).next_id := by
  cases op with
  | peek p a l => exact ⟨fun m hm => Or.inl hm, le_refl _⟩
  | receive p a l =>
    refine ⟨fun m hm => Or.inl (receive_fst_mem hm), ?_⟩
    rw [show applyOp state (.receive p a l) = (receive_messages state p a l).1 from rfl,
      receive_fst_next]
  | deleteMsg s =>
    cases hd : delete_message state s with
    | error e =>
      simp only [applyOp, hd]
      exact ⟨fun m hm => Or.inl hm, le_refl _⟩
    | ok pr =>
      obtain ⟨db2, b⟩ := pr
      obtain ⟨n, hshape⟩ := delete_message_ok_inv hd
      simp only [applyOp, hd]
      rw [hshape]
      exact ⟨fun m hm => Or.inl (List.mem_filter.mp hm).1, le_refl _⟩
  | send p t f c r now =>
    cases hs : send_message state p t f c r now with
    | error e =>
      simp only [applyOp, hs]
      exact ⟨fun m hm => Or.inl hm, le_refl _⟩
    | ok pr =>
      obtain ⟨db2, sid⟩ := pr
      have hshape := send_message_ok_inv hs
      simp only [applyOp, hs]
      rw [hshape]
      constructor
      · intro m hm
        rcases List.mem_append.mp hm with hl | hr
        · exact Or.inl hl
        · simp at hr
          right
          rw [hr]
      · exact Nat.le_succ _

/-- One operation preserves `NotConsumed`. -/
theorem notConsumed_applyOp {S : List Nat} {state : MsgDb} {op : MsgOp}
    (h : NotConsumed S state) : NotConsumed S (applyOp state op) := by
  obtain ⟨hmem, hlt⟩ := h
  obtain ⟨hm, hn⟩ := applyOp_mem state op
  constructor
  · intro m hmm hin
    rcases hm m hmm with hold | hnew
    · exact hmem m hold hin
    · have := hlt _ hin
      omega
  · intro i hi
    exact lt_of_lt_of_le (hlt i hi) hn

/-- Any sequence of operations preserves `NotConsumed`. -/
theorem notConsumed_applyOps {S : List Nat} {state : MsgDb} {ops : List MsgOp}
    (h : NotConsumed S state) : NotConsumed S (applyOps state ops) := by
  induction ops generalizing state with
  | nil => exact h
  | cons op ops ih => exact ih (notConsumed_applyOp h)

/-- Claim C1 (status: confirmed).  On every well-formed table (ids strictly
increasing in rowid order and below the AUTOINCREMENT counter, timestamps
nondecreasing — the invariant of every reachable table under a
non-backwards clock), `receive(pid, agent, limit)` returns exactly the
`min(n, k)` oldest pending messages of that queue in creation order, where
`n` is the queue length and `k = min(limit, 500)` with `k = 100` when the
limit is unspecified (`effLimit`); it deletes exactly the messages it
returned (a row survives iff it was a row and was not returned); and no
returned message's id ever appears again in any receive or peek after any
further sequence of operations. -/
theorem receive_exactly_once (db : MsgDb) (pid agent : String) (limit : Option Nat)
    (hwf : WFdb db) :
    (receive_messages db pid agent limit).2
        = (db.rows.filter (inQueue pid agent)).take (effLimit limit) ∧
    (receive_messages db pid agent limit).2.length
        = min (effLimit limit) (db.rows.filter (inQueue pid agent)).length ∧
    (∀ m : Msg, m ∈ (receive_messages db pid agent limit).1.rows ↔
        (m ∈ db.rows ∧ m ∉ (receive_messages db pid agent limit).2)) ∧
    (∀ (ops : List MsgOp) (p2 a2 : String) (l2 : Option Nat) (m m2 : Msg),
        m ∈ (receive_messages db pid agent limit).2 →
        (m2 ∈ peek_messages (applyOps (receive_messages db pid agent limit).1 ops) p2 a2 l2 ∨
         m2 ∈ (receive_messages (applyOps (receive_messages db pid agent limit).1 ops)
                  p2 a2 l2).2) →
        m2.id ≠ m.id) := by
  have hsortedq : List.Sorted queueLE (db.rows.filter (inQueue pid agent)) := by
    refine (hwf.1.filter _).imp ?_
    intro x y h
    unfold queueLE
    omega
  have hA : query_messages db pid agent (effLimit limit)
      = (db.rows.filter (inQueue pid agent)).take (effLimit limit) := by
    unfold query_messages
    rw [hsortedq.insertionSort_eq]
  have hsnd : (receive_messages db pid agent limit).2
      = (db.rows.filter (inQueue pid agent)).take (effLimit limit) := by
    rw [receive_messages_snd]
    exact hA
  refine ⟨hsnd, ?_, ?_, ?_⟩
  · rw [hsnd, List.length_take]
  · intro m
    by_cases hq : (query_messages db pid agent (effLimit limit)).isEmpty = true
    · have hnil : query_messages db pid agent (effLimit limit) = [] :=
        List.isEmpty_iff.mp hq
      rw [receive_messages_snd]
      unfold peek_messages
      simp [receive_messages, hq, hnil]
    · rw [receive_messages_snd]
      unfold peek_messages
      simp only [receive_messages, hq, if_false, Bool.false_eq_true]
      constructor
      · intro hm
        simp at hm
        refine ⟨hm.1, ?_⟩
        intro hmem
        exact hm.2 m hmem rfl
      · intro hm
        simp
        refine ⟨hm.1, ?_⟩
        intro x hx hxid
        apply hm.2
        have hxrows : x ∈ db.rows := mem_rows_of_mem_query hx
        have hidlt : (db.rows.map Msg.id).Pairwise (· < ·) :=
          List.Pairwise.map Msg.id (fun a b h => h.1) hwf.1
        have hnodup : (db.rows.map Msg.id).Nodup :=
          hidlt.imp (fun h => Nat.ne_of_lt h)
        have hxm : x = m :=
          List.inj_on_of_nodup_map hnodup hxrows hm.1 hxid
        rw [← hxm]
        exact hx
  · intro ops p2 a2 l2 m m2 hm hm2
    have hS0 : NotConsumed ((query_messages db pid agent (effLimit limit)).map Msg.id)
        (receive_messages db pid agent limit).1 := by
      constructor
      · intro m3 hm3 hin
        obtain ⟨x, hx, hxid⟩ := List.mem_map.mp hin
        by_cases hq : (query_messages db pid agent (effLimit limit)).isEmpty = true
        · rw [List.isEmpty_iff.mp hq] at hx
          cases hx
        · simp [receive_messages, hq] at hm3
          exact hm3.2 x hx hxid
      · intro i hi
        obtain ⟨m3, hm3, hid⟩ := List.mem_map.mp hi
        have hrows : m3 ∈ db.rows := mem_rows_of_mem_query hm3
        have hbound := hwf.2 m3 hrows
        rw [receive_fst_next]
        omega
    have hS := @notConsumed_applyOps _ _ ops hS0
    have hm2rows : m2 ∈ (applyOps (receive_messages db pid agent limit).1 ops).rows := by
      rcases hm2 with hp | hr
      · exact mem_rows_of_mem_peek hp
      · rw [receive_messages_snd] at hr
        exact mem_rows_of_mem_peek hr
    have hid_not : m2.id ∉ (query_messages db pid agent (effLimit limit)).map Msg.id :=
      hS.1 m2 hm2rows
    intro heq
    apply hid_not
    rw [heq]
    rw [receive_messages_snd] at hm
    exact List.mem_map_of_mem Msg.id hm

/-- Concrete table for the claim C1 witness: a queue of two messages. -/
def dbW1 : MsgDb :=
  ⟨[⟨0, "p", "bob", "alice", none, "hi", 5⟩, ⟨1, "p", "bob", "alice", none, "yo", 5⟩], 2⟩

/-- Claim C1 witness: the theorem applied at a concrete well-formed table
with limit 1. -/
theorem receive_exactly_once_witness :
    (receive_messages dbW1 "p" "bob" (some 1)).2
        = (dbW1.rows.filter (inQueue "p" "bob")).take (effLimit (some 1)) ∧
    (receive_messages dbW1 "p" "bob" (some 1)).2.length
        = min (effLimit (some 1)) (dbW1.rows.filter (inQueue "p" "bob")).length ∧
    (∀ m : Msg, m ∈ (receive_messages dbW1 "p" "bob" (some 1)).1.rows ↔
        (m ∈ dbW1.rows ∧ m ∉ (receive_messages dbW1 "p" "bob" (some 1)).2)) ∧
    (∀ (ops : List MsgOp) (p2 a2 : String) (l2 : Option Nat) (m m2 : Msg),
        m ∈ (receive_messages dbW1 "p" "bob" (some 1)).2 →
        (m2 ∈ peek_messages (applyOps (receive_messages dbW1 "p" "bob" (some 1)).1 ops) p2 a2 l2 ∨
         m2 ∈ (receive_messages (applyOps (receive_messages dbW1 "p" "bob" (some 1)).1 ops)
                  p2 a2 l2).2) →
        m2.id ≠ m.id) :=
  receive_exactly_once dbW1 "p" "bob" (some 1) (by decide)

end Mailbox
